import Mathlib

/-!
# Verification of the geo-analytic streaming/enrichment pipeline

Shallow embedding, in Lean 4, of the hierarchical geospatial streaming and
enrichment pipeline of the `geo-analyic-statscan` repository.  The repository
contains two revisions of the data-service class (`src/unnamed/part_000` and
`src/unnamed/part_001`, both `StatCanService`); the orchestration loop lives in
`src/App.tsx`.  Definitions below are translated directly from those sources:

* JavaScript numbers are modelled as rationals (`ℚ`);
* `Math.sin` / `Math.cos` are abstract parameters `sinq cosq : ℚ → ℚ`,
  constrained (where a theorem needs it) by the mathematical bounds
  `|sin| ≤ 1`, `|cos| ≤ 1`;
* JavaScript objects used as string-keyed maps are association lists;
* network calls are modelled by passing the (parsed) response — or its
  failure — as an explicit argument;
* a JavaScript runtime `TypeError` (reading a property of `undefined`) is
  modelled by `Except.error`.
-/

/-! ## Data model -/

/-- The six LOD tiers, coarsest to finest (`types.ts`, `LODLevel`). -/
inductive LODLevel where
  | PROVINCE | CMA | CD | CCS | FSA | DA
deriving DecidableEq, Repr

/-- Position of a tier in the coarse-to-fine order (PROVINCE = 0 … DA = 5). -/
def LODLevel.idx : LODLevel → ℕ
  | .PROVINCE => 0
  | .CMA => 1
  | .CD => 2
  | .CCS => 3
  | .FSA => 4
  | .DA => 5

/-- A linear ring: list of coordinate pairs.  In the GeoJSON input each entry
is `[longitude, latitude]`, i.e. the first component is `x` (lng) and the
second is `y` (lat). -/
abbrev GeoRing := List (ℚ × ℚ)

/-- GeoJSON geometry as consumed by `getCentroid`.
`noCoords` stands for a geometry value that is `null`/`undefined` or whose
`coordinates` field is `null`/`undefined` (the guard
`if (!geometry || !geometry.coordinates) return null`); note that in
JavaScript an *empty array* of coordinates is truthy and does **not** take
that guard, so empty coordinate lists stay in `polygon` / `multiPolygon`.
`other` is a geometry of any type other than `Polygon`/`MultiPolygon`. -/
inductive Geometry where
  | polygon (rings : List GeoRing)
  | multiPolygon (polys : List (List GeoRing))
  | other
  | noCoords
deriving Repr

/-- Viewport bounds `{north, south, east, west}` in degrees. -/
structure Bounds where
  north : ℚ
  south : ℚ
  east : ℚ
  west : ℚ
deriving DecidableEq, Repr

/-- A statistical product (the fields the pipeline reads: `id`, `category`). -/
structure DataProduct where
  id : String
  category : String
deriving DecidableEq, Repr

/-! ## Spatial bounds filter

`isPointInBounds` (part_000 lines 125–131 with buffer fraction `0.1`,
part_001 lines 185–190 with buffer fraction `0.2`).  The buffer fraction is
made a parameter `f`; the two source occurrences are the specialisations
below. -/

/-- `isPointInBounds`, with the hard-coded buffer fraction generalised to `f`:
the bounds rectangle is expanded by `f` times its own span on each axis and
membership is tested on both axes. -/
def isPointInBounds (f : ℚ) (lat lng : ℚ) (bounds : Bounds) : Bool :=
  let latBuf := (bounds.north - bounds.south) * f
  let lngBuf := (bounds.east - bounds.west) * f
  decide (lat ≤ bounds.north + latBuf) && decide (lat ≥ bounds.south - latBuf) &&
  decide (lng ≤ bounds.east + lngBuf) && decide (lng ≥ bounds.west - lngBuf)

/-- The part_000 bounds filter (`0.1` buffer). -/
def isPointInBounds_v0 (lat lng : ℚ) (bounds : Bounds) : Bool :=
  isPointInBounds (1/10) lat lng bounds

/-- The part_001 bounds filter (`0.2` buffer). -/
def isPointInBounds_v1 (lat lng : ℚ) (bounds : Bounds) : Bool :=
  isPointInBounds (2/10) lat lng bounds

/-! ## LOD state machine (`src/App.tsx`, lines 80–103) -/

/-- The zoom→tier step function of the `useEffect` in `App.tsx`
(lines 84–89): thresholds 4, 6, 8, 10, 12. -/
def zoomToTier (z : ℚ) : LODLevel :=
  if z < 4 then .PROVINCE
  else if 4 ≤ z ∧ z < 6 then .CMA
  else if 6 ≤ z ∧ z < 8 then .CD
  else if 8 ≤ z ∧ z < 10 then .CCS
  else if 10 ≤ z ∧ z < 12 then .FSA
  else .DA

/-- The pieces of `App` component state that the zoom effect touches.
`masterPoints` is the Master Point Store (`masterPointsRef`, a `Map` from id
to point — here an association list keyed by id); `layerCache` is the
per-tier cached raw geometry; `detailedPoints` is the display copy. -/
structure AppState (Point FC : Type) where
  lod : LODLevel
  masterPoints : List (String × Point)
  layerCache : List (LODLevel × FC)
  detailedPoints : List Point
  showLoadButton : Bool

/-- The body of the zoom `useEffect` (`App.tsx` lines 80–103): derive the
tier from the zoom; on a tier change clear the Master Point Store and the
displayed points (the layer cache is untouched); finally derive the
load-button flag from `z > 4`. -/
def zoomEffect {Point FC : Type} (z : ℚ) (s : AppState Point FC) :
    AppState Point FC :=
  let nextLod := zoomToTier z
  let s' :=
    if nextLod ≠ s.lod then
      { s with lod := nextLod, masterPoints := [], detailedPoints := [] }
    else s
  { s' with showLoadButton := decide (z > 4) }

/-! ## Baseline fallback constants -/

/-- The category-keyed static fallback of `fetchBaselines`
(part_000 lines 265–269): Housing `125.5`, Labour `6.1`,
Demographics `5000`, otherwise `100`. -/
def fallbackBaselineV0 (category : String) : ℚ :=
  if category = "Housing" then 251/2
  else if category = "Labour" then 61/10
  else if category = "Demographics" then 5000
  else 100

/-- The category-keyed static fallback of `getMetricsForPoints`
(part_001 line 274): Housing `125.5`, Labour `6.1`, otherwise `1000`
(there is no Demographics case in this revision). -/
def fallbackBaselineV1 (category : String) : ℚ :=
  if category = "Housing" then 251/2
  else if category = "Labour" then 61/10
  else 1000

/-! ## Centroid extractor

`getCentroid` (identical in part_000 lines 28–65 and part_001 lines 36–73).
The JavaScript computes, for a MultiPolygon, the axis-aligned bounding box of
each sub-polygon's ring `poly[0]` with a `min`/`max` fold started from
`±Infinity`, keeps `largestPoly` (initialised to `polygon[0]`, i.e. the first
sub-polygon, with `maxArea = 0`), and finally averages the selected
sub-polygon's ring `polygon[0]`, returning `[y/len, x/len]` — latitude first.

Two float/`undefined` subtleties are preserved exactly:

* an *empty* ring gives `minX = +∞, maxX = -∞`, so
  `(maxX-minX)*(maxY-minY) = (-∞)·(-∞) = +∞`: its "area" beats every finite
  area.  Extended areas are `Option ℚ` with `none` standing for `+∞`
  (and `Infinity > Infinity` is `false` in JavaScript, as in `areaGt`);
* a sub-polygon with *no* rings makes `ring` `undefined` and
  `ring.forEach` throws a `TypeError`; an empty sub-polygon *list* makes
  `largestPoly` (`polygon[0]`) `undefined` and the later `polygon[0]`
  indexing throws.  Both are `Except.error ()`. -/

/-- Axis-aligned bounding-box "area" of a ring as computed by the source's
`min`/`max` fold: `none` encodes the JavaScript `+Infinity` produced for an
empty ring. -/
def bboxArea : GeoRing → Option ℚ
  | [] => none
  | c :: cs =>
      let minX := cs.foldl (fun a p => min a p.1) c.1
      let maxX := cs.foldl (fun a p => max a p.1) c.1
      let minY := cs.foldl (fun a p => min a p.2) c.2
      let maxY := cs.foldl (fun a p => max a p.2) c.2
      some ((maxX - minX) * (maxY - minY))

/-- `area > maxArea` on extended areas (`none` = `+Infinity`); mirrors
JavaScript `>` including `Infinity > Infinity = false`. -/
def areaGt : Option ℚ → Option ℚ → Bool
  | none, none => false
  | none, some _ => true
  | some _, none => false
  | some a, some b => decide (b < a)

/-- The `forEach` selection loop of the MultiPolygon branch: scan the
sub-polygons, keeping `(maxArea, largestPoly)`; a sub-polygon with no rings
(`ring = poly[0] = undefined`) raises (`ring.forEach` on `undefined`). -/
def scanPolys : List (List GeoRing) → Option ℚ × List GeoRing →
    Except Unit (Option ℚ × List GeoRing)
  | [], acc => .ok acc
  | poly :: rest, (maxArea, largest) =>
      match poly with
      | [] => .error ()
      | ring :: _ =>
          let area := bboxArea ring
          if areaGt area maxArea then scanPolys rest (area, poly)
          else scanPolys rest (maxArea, largest)

/-- Tail of `getCentroid` shared by both branches: take the outer ring
`polygon[0]`; if it is absent or empty return `null`; otherwise return the
arithmetic mean of its vertices, **latitude (y) first** —
`return [y / ring.length, x / ring.length]`. -/
def centroidFromRings : List GeoRing → Option (ℚ × ℚ)
  | [] => none
  | ring :: _ =>
      if ring.isEmpty then none
      else some ((ring.map Prod.snd).sum / ring.length,
                 (ring.map Prod.fst).sum / ring.length)

/-- `getCentroid` (part_000 lines 28–65 / part_001 lines 36–73).
`Except.error ()` models the JavaScript `TypeError`s described above. -/
def getCentroid : Geometry → Except Unit (Option (ℚ × ℚ))
  | .noCoords => .ok none
  | .other => .ok none
  | .polygon rings => .ok (centroidFromRings rings)
  | .multiPolygon polys =>
      match polys with
      | [] => .error ()
      | p0 :: rest =>
          match scanPolys (p0 :: rest) (some 0, p0) with
          | .error e => .error e
          | .ok (_, largest) => .ok (centroidFromRings largest)

/-! ### Specification-side selection rule (for the refinement claim C3)

From the spec's words: "select the sub-polygon whose axis-aligned bounding box
has the largest area … Tie-break: first sub-polygon encountered wins on exact
ties."  For a sub-polygon with a nonempty outer ring the bounding-box area is
the finite value below; `specSelect` returns the first sub-polygon whose area
is greatest. -/

/-- Spec-side bounding-box area of a sub-polygon's outer ring (polys whose
outer ring is present and nonempty; `0` as an inert default otherwise). -/
def specBboxArea (poly : List GeoRing) : ℚ :=
  match poly with
  | [] => 0
  | ring :: _ =>
      match ring with
      | [] => 0
      | c :: cs =>
          ((cs.foldl (fun a p => max a p.1) c.1) - (cs.foldl (fun a p => min a p.1) c.1)) *
          ((cs.foldl (fun a p => max a p.2) c.2) - (cs.foldl (fun a p => min a p.2) c.2))

/-- Spec-side selection: the first sub-polygon whose bounding-box area is at
least that of every sub-polygon in the list. -/
def specSelect (polys : List (List GeoRing)) : Option (List GeoRing) :=
  polys.find? (fun p => polys.all (fun q => decide (specBboxArea q ≤ specBboxArea p)))

/-! ## Association-list update

JavaScript object assignment `obj[k] = v` on a string-keyed (or number-keyed)
object: replace the binding if the key is present, append it otherwise. -/

/-- `setA l k v`: the association list `l` with the binding of `k` set to
`v` (JavaScript `obj[k] = v`). -/
def setA {α β : Type} [BEq α] : List (α × β) → α → β → List (α × β)
  | [], k, v => [(k, v)]
  | (k', v') :: rest, k, v =>
      if k' == k then (k, v) :: rest else (k', v') :: setA rest k v

/-! ## Metric synthesizer

Two revisions:
* `enrichFeature` (part_000 lines 198–256): per-tier frequency ladder,
  category-length seed, noise `n1 = sin(lat·freq+seed)·cos(lng·freq+seed)`
  and a lower-frequency parent noise `p1` at `freq·0.2`; amplitudes
  `0.25`/`0.1` for `Housing`, `0.18`/`0.05` otherwise; **no clamping**.
* `getMetricsForPoints` (part_001 lines 281–298): frequency `120` for `DA`
  and `4` otherwise, single noise `n1`, **uniform amplitude `0.2` for every
  category**, and a `Math.max(0, ·)` clamp.

`sinq`/`cosq` abstract `Math.sin`/`Math.cos`. -/

/-- `const seed = product.category.length * 137`. -/
def seedOf (category : String) : ℚ := (category.length : ℚ) * 137

/-- The tier→frequency if-chain of `enrichFeature` (part_000 lines 216–222);
the initial `100` is the (unreachable) default for the six-valued tier. -/
def enrichFreq (level : LODLevel) : ℚ :=
  if level = .DA then 120
  else if level = .FSA then 60
  else if level = .CCS then 30
  else if level = .CD then 15
  else if level = .CMA then 8
  else if level = .PROVINCE then 4
  else 100

/-- `baselines[product.id] || 100` of `enrichFeature` (part_000 line 213):
a missing **or zero** (falsy) baseline yields `100`. -/
def enrichBaseVal (baselines : List (String × ℚ)) (productId : String) : ℚ :=
  match List.lookup productId baselines with
  | some v => if v = 0 then 100 else v
  | none => 100

/-- Feature-level value of `enrichFeature` (part_000 lines 224–237):
`baseVal * (1 + n1 * 0.25)` for `Housing`, `baseVal * (1 + n1 * 0.18)`
otherwise; no clamp. -/
def enrichFinalVal (sinq cosq : ℚ → ℚ) (level : LODLevel) (category : String)
    (baseVal lat lng : ℚ) : ℚ :=
  let seed := seedOf category
  let freq := enrichFreq level
  let n1 := sinq (lat * freq + seed) * cosq (lng * freq + seed)
  if category = "Housing" then baseVal * (1 + n1 * (25/100))
  else baseVal * (1 + n1 * (18/100))

/-- Parent-level value of `enrichFeature` (part_000 lines 225–237):
lower-frequency noise at `freq * 0.2`; `baseVal * (1 + p1 * 0.1)` for
`Housing`, `baseVal * (1 + p1 * 0.05)` otherwise; no clamp. -/
def enrichParentVal (sinq cosq : ℚ → ℚ) (level : LODLevel) (category : String)
    (baseVal lat lng : ℚ) : ℚ :=
  let seed := seedOf category
  let pFreq := enrichFreq level * (2/10)
  let p1 := sinq (lat * pFreq + seed) * cosq (lng * pFreq + seed)
  if category = "Housing" then baseVal * (1 + p1 * (1/10))
  else baseVal * (1 + p1 * (5/100))

/-- Per-point, per-product value of `getMetricsForPoints` (part_001
lines 285–290): frequency `lod === 'DA' ? 120 : 4`, uniform amplitude `0.2`,
clamped by `Math.max(0, ·)`.  Note: no category distinction. -/
def gmfpVal (sinq cosq : ℚ → ℚ) (lod : LODLevel) (category : String)
    (baseVal lat lng : ℚ) : ℚ :=
  let seed := seedOf category
  let freq : ℚ := if lod = .DA then 120 else 4
  let n1 := sinq (lat * freq + seed) * cosq (lng * freq + seed)
  max 0 (baseVal * (1 + n1 * (2/10)))

/-- An enriched point (`types.ts` `GeoPoint`, fields the pipeline touches). -/
structure GeoPoint where
  id : String
  name : String
  lat : ℚ
  lng : ℚ
  value : ℚ
  metrics : List (String × ℚ)
  trend : ℚ
  category : Option String
  lod : LODLevel
  postalCode : String
deriving DecidableEq, Repr

/-- The per-product body of the inner `products.forEach` of
`getMetricsForPoints` (part_001 lines 283–291): if the point's metrics map
already has an entry for `product.id` (`!== undefined`) the point is left
untouched; otherwise the synthesized value is written under `product.id`.
(The surrounding orchestration always populates `baselines` for every
requested product, so the `getD 0` default for a missing baseline is inert.) -/
def synthOne (sinq cosq : ℚ → ℚ) (baselines : List (String × ℚ))
    (product : DataProduct) (pt : GeoPoint) : GeoPoint :=
  if (List.lookup product.id pt.metrics).isSome then pt
  else
    let baseVal := (List.lookup product.id baselines).getD 0
    let v := gmfpVal sinq cosq pt.lod product.category baseVal pt.lat pt.lng
    { pt with metrics := setA pt.metrics product.id v }

/-- The per-point body of `getMetricsForPoints` (part_001 lines 281–298):
run `synthOne` for every product, then (if any product is active) set the
display `value` to the first product's metric and `category` to the first
product's category. -/
def gmfpPointStep (sinq cosq : ℚ → ℚ) (baselines : List (String × ℚ))
    (products : List DataProduct) (pt : GeoPoint) : GeoPoint :=
  let pt1 := products.foldl (fun p prod => synthOne sinq cosq baselines prod p) pt
  match products with
  | [] => pt1
  | p0 :: _ =>
      { pt1 with value := (List.lookup p0.id pt1.metrics).getD 0,
                 category := some p0.category }

/-! ## Baseline resolver

`fetchLiveBaseline` (part_001 lines 105–134) with its `baselineCache` and
`scalarCodes` state.  Network interactions are explicit arguments:
`codeSetsResp` is the parsed scalar table delivered by `fetchCodeSets`
(empty on failure), `resp` is the latest-observation response —
`some (value, scalarFactorCode)` on success, `none` on any failure. -/

/-- The mutable service state relevant to baseline resolution
(part_001 lines 24–33; the constructor seeds `scalarCodes` with
`{0 ↦ 1}`). -/
structure BaselineState where
  baselineCache : List (String × ℚ)
  scalarCodes : List (ℕ × ℚ)
deriving DecidableEq, Repr

/-- The freshly-constructed service state: empty baseline cache, identity
scalar table `{0 ↦ 1}`. -/
def initialBaselineState : BaselineState := ⟨[], [(0, 1)]⟩

/-- `fetchCodeSets` (part_001 lines 84–102): store each delivered
`(code, factor)` pair into `scalarCodes`; a failed fetch delivers nothing. -/
def applyCodeSets (st : BaselineState) (codeSetsResp : List (ℕ × ℚ)) :
    BaselineState :=
  { st with scalarCodes :=
      codeSetsResp.foldl (fun m cf => setA m cf.1 cf.2) st.scalarCodes }

/-- The cache-miss path of `fetchLiveBaseline` (part_001 lines 108–133):
populate the scalar table if it still has exactly one key; on a successful
response multiply the value by `scalarCodes[code] || 1`, **cache it**, and
return it; on failure return `null` leaving the baseline cache unwritten.
The `Bool` records that the latest-observation network fetch was made. -/
def fetchLiveBaselineMiss (st : BaselineState) (productId : String)
    (codeSetsResp : List (ℕ × ℚ)) (resp : Option (ℚ × ℕ)) :
    BaselineState × Option ℚ × Bool :=
  let st1 := if st.scalarCodes.length = 1 then applyCodeSets st codeSetsResp
             else st
  match resp with
  | none => (st1, none, true)
  | some (value, code) =>
      let scalar :=
        match List.lookup code st1.scalarCodes with
        | some s => if s = 0 then 1 else s
        | none => 1
      let val := value * scalar
      ({ st1 with baselineCache := setA st1.baselineCache productId val },
       some val, true)

/-- `fetchLiveBaseline` (part_001 lines 105–134).  The guard
`if (this.baselineCache[productId]) return …` is a JavaScript *truthiness*
test: a cached value of `0` is falsy and falls through to a fresh fetch. -/
def fetchLiveBaseline (st : BaselineState) (productId : String)
    (codeSetsResp : List (ℕ × ℚ)) (resp : Option (ℚ × ℕ)) :
    BaselineState × Option ℚ × Bool :=
  match List.lookup productId st.baselineCache with
  | some v =>
      if v = 0 then fetchLiveBaselineMiss st productId codeSetsResp resp
      else (st, some v, false)
  | none => fetchLiveBaselineMiss st productId codeSetsResp resp

/-- The per-product baseline prefetch of `getMetricsForPoints`
(part_001 lines 270–275): use the live value when `liveVal !== null`,
otherwise the category-keyed static fallback; the fallback is only written
into the local `baselines` map, never into `baselineCache`. -/
def resolveBaselineV1 (st : BaselineState) (p : DataProduct)
    (codeSetsResp : List (ℕ × ℚ)) (resp : Option (ℚ × ℕ)) :
    BaselineState × ℚ :=
  let r := fetchLiveBaseline st p.id codeSetsResp resp
  match r.2.1 with
  | some v => (r.1, v)
  | none => (r.1, fallbackBaselineV1 p.category)

/-- The per-product body of `fetchBaselines` (part_000 lines 260–271), fed
by part_000's cacheless `fetchLiveBaseline`; `liveVal` is its result.  The
guard `if (liveVal)` is a truthiness test: a live value of `0` also falls
back. -/
def resolveBaselineV0 (liveVal : Option ℚ) (p : DataProduct) : ℚ :=
  match liveVal with
  | some v => if v = 0 then fallbackBaselineV0 p.category else v
  | none => fallbackBaselineV0 p.category

/-! ## Geometry cache & fetch

`fetchGeoJSON` exists in both revisions with different error behaviour:
part_000 (lines 133–146) wraps the fetch in `try/catch` and returns
`{ type: "FeatureCollection", features: [] }` on failure; part_001
(lines 196–203) has **no** `try/catch`, so a rejected fetch or unparsable
body propagates to the caller.  The network interaction (and JSON parsing)
is the explicit `net` argument; `cache` is the entry of `this.cache` for the
tier's URL.  Each function also returns the cache entry after the call. -/

/-- A GeoJSON feature: its geometry (possibly `null`) — the only part of the
attribute bag the stream's filtering logic reads.  (`streamShapes` also
injects a resolved `properties.id` into kept features; that mutation touches
only the attribute bag, never membership, order or batch boundaries, and its
fallback is `Math.random()`-based, so it is not embedded.) -/
structure Feature where
  geometry : Option Geometry

/-- A feature collection: `type` tag plus features. -/
structure FeatureCollection where
  fcType : String
  features : List Feature

/-- The empty, well-formed collection produced by part_000 on fetch
failure. -/
def emptyFC : FeatureCollection := ⟨"FeatureCollection", []⟩

/-- `fetchGeoJSON` of part_000 (lines 133–146): cached value if present;
otherwise the fetched collection (which is also cached), or on failure the
empty collection (which is **not** cached).  Returns (result, cache entry
after the call). -/
def fetchGeoJSON_v0 (cache : Option FeatureCollection)
    (net : Except Unit FeatureCollection) :
    FeatureCollection × Option FeatureCollection :=
  match cache with
  | some d => (d, some d)
  | none =>
      match net with
      | .ok d => (d, some d)
      | .error _ => (emptyFC, none)

/-- `fetchGeoJSON` of part_001 (lines 196–203): no `try/catch` — a failed
fetch propagates as an error to the caller. -/
def fetchGeoJSON_v1 (cache : Option FeatureCollection)
    (net : Except Unit FeatureCollection) :
    Except Unit (FeatureCollection × Option FeatureCollection) :=
  match cache with
  | some d => .ok (d, some d)
  | none =>
      match net with
      | .ok d => .ok (d, some d)
      | .error e => .error e

/-! ## Chunked stream producer

`streamShapes` (part_000 lines 153–195 with `CHUNK_SIZE = 50` and the `0.1`
bounds buffer; part_001 lines 206–242 with `CHUNK_SIZE = 100` and the `0.2`
buffer).  The loop walks the collection's features in order; for each
feature it computes the centroid and keeps the feature iff the centroid
exists and passes the bounds filter; the accumulator chunk is yielded as a
batch exactly when it reaches the chunk size, and a final partial chunk is
yielded at the end.  (part_001 also has `if (!f.geometry) continue`;
part_000 reaches the same skip through `getCentroid`'s `!geometry` guard.)
The lazy generator is embedded as the full finite run: the list of batches,
in emission order, or an error if `getCentroid` throws mid-walk.  The chunk
capacity and the buffer fraction are parameters; the two source
instantiations are below. -/

/-- One complete run of the `streamShapes` loop: remaining features ×
current accumulator chunk → emitted batches (or a propagated
`getCentroid` `TypeError`). -/
def streamLoop (c : ℕ) (f : ℚ) (bounds : Bounds) :
    List Feature → List Feature → Except Unit (List (List Feature))
  | [], chunk => .ok (if chunk.isEmpty then [] else [chunk])
  | ft :: fs, chunk =>
      match ft.geometry with
      | none => streamLoop c f bounds fs chunk
      | some g =>
          match getCentroid g with
          | .error e => .error e
          | .ok none => streamLoop c f bounds fs chunk
          | .ok (some ctr) =>
              if isPointInBounds f ctr.1 ctr.2 bounds then
                let chunk' := chunk ++ [ft]
                if c ≤ chunk'.length then
                  match streamLoop c f bounds fs [] with
                  | .error e => .error e
                  | .ok rest => .ok (chunk' :: rest)
                else streamLoop c f bounds fs chunk'
              else streamLoop c f bounds fs chunk

/-- `streamShapes` on an already-resolved feature list, parameterised by
chunk capacity `c` and buffer fraction `f`. -/
def streamShapesChunks (c : ℕ) (f : ℚ) (bounds : Bounds)
    (features : List Feature) : Except Unit (List (List Feature)) :=
  streamLoop c f bounds features []

/-- part_000 `streamShapes`: capacity 50, buffer 0.1. -/
def streamShapes_v0 (bounds : Bounds) (features : List Feature) :
    Except Unit (List (List Feature)) :=
  streamShapesChunks 50 (1/10) bounds features

/-- part_001 `streamShapes`: capacity 100, buffer 0.2. -/
def streamShapes_v1 (bounds : Bounds) (features : List Feature) :
    Except Unit (List (List Feature)) :=
  streamShapesChunks 100 (2/10) bounds features

/-- A feature qualifies for the stream iff its geometry is present, its
centroid computation returns a point, and that point passes the bounds
filter. -/
def qualifies (f : ℚ) (bounds : Bounds) (ft : Feature) : Bool :=
  match ft.geometry with
  | none => false
  | some g =>
      match getCentroid g with
      | .ok (some ctr) => isPointInBounds f ctr.1 ctr.2 bounds
      | _ => false

/-- A feature's centroid computation does not throw. -/
def geomOk (ft : Feature) : Bool :=
  match ft.geometry with
  | none => true
  | some g =>
      match getCentroid g with
      | .ok _ => true
      | .error _ => false

/-- Reference chunking: cut a list into consecutive runs of `c` elements
(last run possibly shorter).  Used as the specification value of the stream
loop. -/
def chunksOf {α : Type} (c : ℕ) (l : List α) : List (List α) :=
  match l with
  | [] => []
  | x :: xs =>
      if hc : c = 0 then []
      else
        have : ((x :: xs).drop c).length < (x :: xs).length := by
          rw [List.length_drop]
          exact Nat.sub_lt (by simp) (Nat.pos_of_ne_zero hc)
        (x :: xs).take c :: chunksOf c ((x :: xs).drop c)
termination_by l.length
decreasing_by simpa using this

/-! # Helper lemmas -/

/-- Looking up the key just written by `setA` returns the written value. -/
theorem lookup_setA_self {α β : Type} [BEq α] [LawfulBEq α]
    (l : List (α × β)) (k : α) (v : β) :
    List.lookup k (setA l k v) = some v := by
  induction l with
  | nil => simp [setA, List.lookup]
  | cons p rest ih =>
      obtain ⟨k', v'⟩ := p
      by_cases h : k' = k
      · subst h; simp [setA, List.lookup]
      · have hb : (k' == k) = false := by simpa using h
        have hb' : (k == k') = false := by simpa using Ne.symm h
        simp [setA, hb, List.lookup, hb', ih]

/-- `setA` does not disturb the binding of any other key. -/
theorem lookup_setA_ne {α β : Type} [BEq α] [LawfulBEq α]
    (l : List (α × β)) (k k' : α) (v : β) (h : k' ≠ k) :
    List.lookup k' (setA l k v) = List.lookup k' l := by
  have hb : (k' == k) = false := by simpa using h
  induction l with
  | nil => simp [setA, List.lookup, hb]
  | cons p rest ih =>
      obtain ⟨k0, v0⟩ := p
      by_cases h0 : k0 = k
      · subst h0
        simp [setA, List.lookup, hb]
      · have hb0 : (k0 == k) = false := by simpa using h0
        simp only [setA, hb0, Bool.false_eq_true, if_false, List.lookup]
        by_cases h1 : k' == k0 <;> simp [h1, ih]

/-! # Claim theorems -/

/-- C9: for every point, every bounds rectangle with `north ≥ south` and
`east ≥ west`, and buffer fractions `f1 ≤ f2`, a point accepted by
`isPointInBounds` under `f1` is also accepted under `f2`: the bounds filter
is monotone in the buffer fraction. -/
theorem inBounds_monotone_in_buffer (lat lng : ℚ) (b : Bounds) (f1 f2 : ℚ)
    (hns : b.south ≤ b.north) (hew : b.west ≤ b.east) (hf : f1 ≤ f2)
    (h : isPointInBounds f1 lat lng b = true) :
    isPointInBounds f2 lat lng b = true := by
  simp only [isPointInBounds, Bool.and_eq_true, decide_eq_true_eq, ge_iff_le] at h ⊢
  obtain ⟨⟨⟨h1, h2⟩, h3⟩, h4⟩ := h
  have hlat : (b.north - b.south) * f1 ≤ (b.north - b.south) * f2 :=
    mul_le_mul_of_nonneg_left hf (by linarith)
  have hlng : (b.east - b.west) * f1 ≤ (b.east - b.west) * f2 :=
    mul_le_mul_of_nonneg_left hf (by linarith)
  exact ⟨⟨⟨by linarith, by linarith⟩, by linarith⟩, by linarith⟩

/-- Witness for C9: the point `(0, 0)` in the unit-degree box, accepted at
the part_000 buffer `0.1`, is still accepted at the part_001 buffer `0.2`. -/
theorem inBounds_monotone_in_buffer_witness :
    (-1 : ℚ) ≤ 1 ∧ (1/10 : ℚ) ≤ 2/10 ∧
    isPointInBounds (1/10) 0 0 ⟨1, -1, 1, -1⟩ = true ∧
    isPointInBounds (2/10) 0 0 ⟨1, -1, 1, -1⟩ = true := by
  have h0 : isPointInBounds (1/10) 0 0 ⟨1, -1, 1, -1⟩ = true := by
    norm_num [isPointInBounds]
  refine ⟨by norm_num, by norm_num, h0, ?_⟩
  exact inBounds_monotone_in_buffer 0 0 ⟨1, -1, 1, -1⟩ (1/10) (2/10)
    (by norm_num) (by norm_num) (by norm_num) h0

/-- C6: the zoom→tier step function is total and maps the intervals
`(-∞,4) / [4,6) / [6,8) / [8,10) / [10,12) / [12,∞)` to
`PROVINCE / CMA / CD / CCS / FSA / DA`; it is monotone in the zoom; whenever
the derived tier differs from the current one, the zoom effect clears the
Master Point Store (and the displayed points) and installs the new tier,
while the per-tier layer cache is always left unchanged; in particular zoom
`5.9` maps to `CMA` and `6.1` to `CD`. -/
theorem zoomToTier_state_machine {Point FC : Type} (z z1 z2 : ℚ)
    (s : AppState Point FC) :
    (z < 4 → zoomToTier z = .PROVINCE) ∧
    (4 ≤ z → z < 6 → zoomToTier z = .CMA) ∧
    (6 ≤ z → z < 8 → zoomToTier z = .CD) ∧
    (8 ≤ z → z < 10 → zoomToTier z = .CCS) ∧
    (10 ≤ z → z < 12 → zoomToTier z = .FSA) ∧
    (12 ≤ z → zoomToTier z = .DA) ∧
    (z1 ≤ z2 → (zoomToTier z1).idx ≤ (zoomToTier z2).idx) ∧
    (zoomToTier z ≠ s.lod →
      (zoomEffect z s).masterPoints = [] ∧
      (zoomEffect z s).detailedPoints = [] ∧
      (zoomEffect z s).lod = zoomToTier z) ∧
    (zoomEffect z s).layerCache = s.layerCache ∧
    zoomToTier (59/10) = .CMA ∧ zoomToTier (61/10) = .CD := by
  refine ⟨?_, ?_, ?_, ?_, ?_, ?_, ?_, ?_, ?_, ?_, ?_⟩
  · intro h; simp only [zoomToTier]; rw [if_pos h]
  · intro h1 h2
    simp only [zoomToTier]
    rw [if_neg (by linarith), if_pos ⟨h1, h2⟩]
  · intro h1 h2
    simp only [zoomToTier]
    rw [if_neg (by linarith), if_neg (by push_neg; intro; linarith),
        if_pos ⟨h1, h2⟩]
  · intro h1 h2
    simp only [zoomToTier]
    rw [if_neg (by linarith), if_neg (by push_neg; intro; linarith),
        if_neg (by push_neg; intro; linarith), if_pos ⟨h1, h2⟩]
  · intro h1 h2
    simp only [zoomToTier]
    rw [if_neg (by linarith), if_neg (by push_neg; intro; linarith),
        if_neg (by push_neg; intro; linarith),
        if_neg (by push_neg; intro; linarith), if_pos ⟨h1, h2⟩]
  · intro h1
    simp only [zoomToTier]
    rw [if_neg (by linarith), if_neg (by push_neg; intro; linarith),
        if_neg (by push_neg; intro; linarith),
        if_neg (by push_neg; intro; linarith),
        if_neg (by push_neg; intro; linarith)]
  · intro h
    unfold zoomToTier
    split_ifs <;> simp_all [LODLevel.idx] <;> linarith
  · intro h
    simp [zoomEffect, if_pos h]
  · simp only [zoomEffect]
    split <;> rfl
  · norm_num [zoomToTier]
  · norm_num [zoomToTier]

/-- Witness for C6: crossing zoom `5.9 → 6.1` with current tier `CMA` and a
non-empty store clears the Master Point Store and keeps the layer cache. -/
theorem zoomToTier_state_machine_witness :
    zoomToTier (59/10) = .CMA ∧ zoomToTier (61/10) = .CD ∧
    (zoomEffect (61/10)
      (⟨.CMA, [("A", ())], [(.CMA, ())], [()], false⟩ :
        AppState Unit Unit)).masterPoints = [] ∧
    (zoomEffect (61/10)
      (⟨.CMA, [("A", ())], [(.CMA, ())], [()], false⟩ :
        AppState Unit Unit)).layerCache = [(.CMA, ())] := by
  have h := @zoomToTier_state_machine Unit Unit
    (61/10) 1 1 ⟨.CMA, [("A", ())], [(.CMA, ())], [()], false⟩
  obtain ⟨-, -, h3, -, -, -, -, h8, h9, h10, h11⟩ := h
  have hne : zoomToTier (61/10) ≠ LODLevel.CMA := by
    rw [h3 (by norm_num) (by norm_num)]; decide
  exact ⟨h10, h11, (h8 hne).1, h9⟩

/-- C2 counterexample: in the part_001 revision, `fetchGeoJSON` on an
uncached tier whose network fetch fails returns the error itself — it does
**not** return an empty feature collection, contradicting the claim for
that revision. -/
theorem fetchGeoJSON_v1_error_cex :
    fetchGeoJSON_v1 none (.error ()) = .error () ∧
    ∀ fc cache, fetchGeoJSON_v1 none (.error ()) ≠ .ok (fc, cache) := by
  refine ⟨rfl, ?_⟩
  intro fc cache h
  simp [fetchGeoJSON_v1] at h

/-- C2 (amended): on a failed fetch of an uncached tier, the part_000
`fetchGeoJSON` swallows the error and returns the empty, well-formed
collection (zero features, type `"FeatureCollection"`), without caching it;
the part_001 `fetchGeoJSON`, which has no `try/catch`, propagates the same
failure to the caller. -/
theorem fetchGeoJSON_failure_fallback :
    (∀ e : Unit, fetchGeoJSON_v0 none (.error e) = (emptyFC, none)) ∧
    emptyFC.features = [] ∧
    emptyFC.fcType = "FeatureCollection" ∧
    (∀ e : Unit, fetchGeoJSON_v1 none (.error e) = .error e) := by
  exact ⟨fun _ => rfl, rfl, rfl, fun _ => rfl⟩

/-- C5 counterexample: in the part_001 `getMetricsForPoints` fallback, the
`Demographics` category has **no** distinct default — it falls back to the
generic `1000`, not to `5000`. -/
theorem fallbackBaselineV1_demographics_cex :
    fallbackBaselineV1 "Demographics" = 1000 ∧
    fallbackBaselineV1 "Economy" = 1000 ∧
    (1000 : ℚ) ≠ 5000 := by
  refine ⟨?_, ?_, by norm_num⟩ <;>
    · simp only [fallbackBaselineV1]
      rw [if_neg (by decide), if_neg (by decide)]

/-- C5 (amended): when every network step fails, part_000's `fetchBaselines`
resolves to the static fallback with distinct defaults for Housing
(`125.5`), Labour (`6.1`) and Demographics (`5000`) and a generic `100`
otherwise, while part_001's `getMetricsForPoints` resolves Housing to
`125.5`, Labour to `6.1` and everything else — Demographics included — to
the generic `1000`; in part_001 the failure path never writes the baseline
cache, so a later successful fetch for the same product id still stores a
live value. -/
theorem baseline_fallback_constants (c : String) (st : BaselineState)
    (p : DataProduct) (codes codes' : List (ℕ × ℚ)) (val : ℚ) (code : ℕ)
    (hH : c ≠ "Housing") (hL : c ≠ "Labour") (hD : c ≠ "Demographics") :
    fallbackBaselineV0 "Housing" = 251/2 ∧
    fallbackBaselineV0 "Labour" = 61/10 ∧
    fallbackBaselineV0 "Demographics" = 5000 ∧
    fallbackBaselineV0 c = 100 ∧
    fallbackBaselineV1 "Housing" = 251/2 ∧
    fallbackBaselineV1 "Labour" = 61/10 ∧
    fallbackBaselineV1 c = 1000 ∧
    resolveBaselineV0 none p = fallbackBaselineV0 p.category ∧
    (fetchLiveBaseline st p.id codes none).1.baselineCache =
      st.baselineCache ∧
    (List.lookup p.id st.baselineCache = none →
      (resolveBaselineV1 st p codes none).2 = fallbackBaselineV1 p.category) ∧
    (List.lookup p.id st.baselineCache = none →
      ∃ w, (fetchLiveBaseline st p.id codes' (some (val, code))).2.1 = some w ∧
        List.lookup p.id
          (fetchLiveBaseline st p.id codes' (some (val, code))).1.baselineCache
          = some w) := by
  refine ⟨by simp [fallbackBaselineV0],
          by simp only [fallbackBaselineV0]; rw [if_neg (by decide)]; simp,
          by simp only [fallbackBaselineV0]
             rw [if_neg (by decide), if_neg (by decide)]; simp,
          by simp only [fallbackBaselineV0]; rw [if_neg hH, if_neg hL, if_neg hD],
          by simp [fallbackBaselineV1],
          by simp only [fallbackBaselineV1]; rw [if_neg (by decide)]; simp,
          by simp only [fallbackBaselineV1]; rw [if_neg hH, if_neg hL],
          rfl, ?_, ?_, ?_⟩
  · unfold fetchLiveBaseline
    cases hc : List.lookup p.id st.baselineCache with
    | none => simp [fetchLiveBaselineMiss]; split <;> rfl
    | some v =>
        by_cases hv : v = 0
        · simp [hv, fetchLiveBaselineMiss]; split <;> rfl
        · simp [hv]
  · intro hnone
    unfold resolveBaselineV1 fetchLiveBaseline
    rw [hnone]
    simp [fetchLiveBaselineMiss]
  · intro hnone
    unfold fetchLiveBaseline
    rw [hnone]
    unfold fetchLiveBaselineMiss
    refine ⟨_, rfl, ?_⟩
    exact lookup_setA_self _ _ _

/-- Witness for C5 (amended) at a concrete non-special category and fresh
state. -/
theorem baseline_fallback_constants_witness :
    fallbackBaselineV0 "Economy" = 100 ∧ fallbackBaselineV1 "Economy" = 1000 ∧
    (resolveBaselineV1 initialBaselineState ⟨"18100004", "Economy"⟩ [] none).2
      = fallbackBaselineV1 "Economy" := by
  have h := baseline_fallback_constants "Economy" initialBaselineState
    ⟨"18100004", "Economy"⟩ [] [] 0 0
    (by decide) (by decide) (by decide)
  obtain ⟨-, -, -, h4, -, -, h7, -, -, h10, -⟩ := h
  exact ⟨h4, h7, h10 rfl⟩

/-- An entry already present in a point's metrics map survives `synthOne`
for any product: present ids are skipped, and ids written for other
products do not disturb it. -/
theorem lookup_synthOne_preserved (sinq cosq : ℚ → ℚ)
    (baselines : List (String × ℚ)) (product : DataProduct)
    (pt : GeoPoint) (pid : String) (v : ℚ)
    (h : List.lookup pid pt.metrics = some v) :
    List.lookup pid (synthOne sinq cosq baselines product pt).metrics
      = some v := by
  unfold synthOne
  by_cases hp : (List.lookup product.id pt.metrics).isSome
  · simp [hp, h]
  · simp only [hp, Bool.false_eq_true, if_false]
    by_cases he : product.id = pid
    · subst he
      rw [h] at hp
      simp at hp
    · simpa [lookup_setA_ne _ _ _ _ (fun hx => he hx.symm)] using h

/-- C8: synthesis is idempotent per product id — if a point's metrics map
already contains an entry for a requested product id, the per-product
synthesis step (`getMetricsForPoints`' inner `forEach` body) leaves the
point completely unchanged, and the existing entry also survives a whole
`getMetricsForPoints` pass over any product list (the code has no "force"
path that would overwrite it). -/
theorem synthesis_idempotent_per_product (sinq cosq : ℚ → ℚ)
    (baselines : List (String × ℚ)) (products : List DataProduct)
    (product : DataProduct) (pt : GeoPoint) (v : ℚ)
    (h : List.lookup product.id pt.metrics = some v) :
    synthOne sinq cosq baselines product pt = pt ∧
    List.lookup product.id
      (gmfpPointStep sinq cosq baselines products pt).metrics = some v := by
  constructor
  · unfold synthOne
    simp [h]
  · have hfold : ∀ (ps : List DataProduct) (q : GeoPoint),
        List.lookup product.id q.metrics = some v →
        List.lookup product.id
          (ps.foldl (fun p prod => synthOne sinq cosq baselines prod p) q).metrics
          = some v := by
      intro ps
      induction ps with
      | nil => intro q hq; simpa using hq
      | cons hd tl ih =>
          intro q hq
          exact ih _ (lookup_synthOne_preserved sinq cosq baselines hd q _ _ hq)
    unfold gmfpPointStep
    cases products with
    | nil => exact hfold [] pt h
    | cons p0 ps => exact hfold (p0 :: ps) pt h

/-- Witness for C8: a point already carrying a metric for product
`98100001` is untouched by a re-run of the synthesis step for that
product. -/
theorem synthesis_idempotent_per_product_witness :
    List.lookup "98100001"
      ((⟨"A", "A", 43, -81, 5, [("98100001", 5)], 0, none, .PROVINCE, ""⟩ :
        GeoPoint)).metrics = some 5 ∧
    synthOne (fun _ => 0) (fun _ => 0) [] ⟨"98100001", "Demographics"⟩
      ⟨"A", "A", 43, -81, 5, [("98100001", 5)], 0, none, .PROVINCE, ""⟩ =
      ⟨"A", "A", 43, -81, 5, [("98100001", 5)], 0, none, .PROVINCE, ""⟩ := by
  have hl : List.lookup "98100001"
      ((⟨"A", "A", 43, -81, 5, [("98100001", 5)], 0, none, .PROVINCE, ""⟩ :
        GeoPoint)).metrics = some 5 := by
    simp [List.lookup]
  refine ⟨hl, ?_⟩
  exact (synthesis_idempotent_per_product (fun _ => 0) (fun _ => 0) []
    [] ⟨"98100001", "Demographics"⟩ _ 5 hl).1

/-- C4 counterexample: a first call of `fetchLiveBaseline` that succeeds
with the value `0` caches `0`, yet — because the cache-hit guard is a
JavaScript truthiness test — a second call for the same product id performs
the network fetch again. -/
theorem fetchLiveBaseline_zero_refetch_cex :
    (fetchLiveBaseline initialBaselineState "98100001" [] (some (0, 0))).2.1
      = some 0 ∧
    List.lookup "98100001"
      (fetchLiveBaseline initialBaselineState "98100001" [] (some (0, 0))).1.baselineCache
      = some 0 ∧
    (fetchLiveBaseline
      (fetchLiveBaseline initialBaselineState "98100001" [] (some (0, 0))).1
      "98100001" [] (some (0, 0))).2.2 = true := by
  have h1 : fetchLiveBaseline initialBaselineState "98100001" [] (some (0, 0))
      = (⟨[("98100001", 0)], [(0, 1)]⟩, some 0, true) := by
    simp [fetchLiveBaseline, fetchLiveBaselineMiss, initialBaselineState,
      applyCodeSets, setA, List.lookup]
  rw [h1]
  refine ⟨rfl, by simp [List.lookup], ?_⟩
  simp [fetchLiveBaseline, fetchLiveBaselineMiss, List.lookup]

/-- C4 (amended): once a call of `fetchLiveBaseline` has succeeded with a
**nonzero** value `w`, every later call for the same product id returns the
cached `w` without performing a network fetch and leaves the state
unchanged.  (A cached `0` is falsy and does not prevent a refetch — see the
counterexample.) -/
theorem fetchLiveBaseline_cached_no_refetch (st st2 : BaselineState)
    (pid : String) (codes codes' : List (ℕ × ℚ))
    (resp resp' : Option (ℚ × ℕ)) (w : ℚ) (fetched : Bool)
    (h : fetchLiveBaseline st pid codes resp = (st2, some w, fetched))
    (hw : w ≠ 0) :
    fetchLiveBaseline st2 pid codes' resp' = (st2, some w, false) := by
  have hcache : List.lookup pid st2.baselineCache = some w := by
    cases resp with
    | none =>
        unfold fetchLiveBaseline fetchLiveBaselineMiss at h
        cases hc : List.lookup pid st.baselineCache with
        | none => rw [hc] at h; simp at h
        | some v =>
            rw [hc] at h
            by_cases hv : v = 0
            · simp only [if_pos hv] at h
              simp at h
            · simp only [if_neg hv, Prod.mk.injEq, Option.some.injEq] at h
              obtain ⟨hst, hval, -⟩ := h
              rw [← hst, hc, hval]
    | some vc =>
        obtain ⟨value, code⟩ := vc
        unfold fetchLiveBaseline fetchLiveBaselineMiss at h
        cases hc : List.lookup pid st.baselineCache with
        | none =>
            rw [hc] at h
            simp only [Prod.mk.injEq, Option.some.injEq] at h
            obtain ⟨hst, hval, -⟩ := h
            rw [← hst, ← hval]
            exact lookup_setA_self _ _ _
        | some v =>
            rw [hc] at h
            by_cases hv : v = 0
            · simp only [if_pos hv, Prod.mk.injEq, Option.some.injEq] at h
              obtain ⟨hst, hval, -⟩ := h
              rw [← hst, ← hval]
              exact lookup_setA_self _ _ _
            · simp only [if_neg hv, Prod.mk.injEq, Option.some.injEq] at h
              obtain ⟨hst, hval, -⟩ := h
              rw [← hst, hc, hval]
  unfold fetchLiveBaseline
  rw [hcache]
  simp only [if_neg hw]

/-- Witness for C4 (amended): after a first successful fetch of `7` for
product `14100287`, a second call returns `7` from the cache with no
network fetch. -/
theorem fetchLiveBaseline_cached_no_refetch_witness :
    fetchLiveBaseline
      (fetchLiveBaseline initialBaselineState "14100287" [] (some (7, 0))).1
      "14100287" [] none =
      ((fetchLiveBaseline initialBaselineState "14100287" [] (some (7, 0))).1,
        some 7, false) := by
  have h1 : fetchLiveBaseline initialBaselineState "14100287" [] (some (7, 0))
      = (⟨[("14100287", 7)], [(0, 1)]⟩, some 7, true) := by
    simp [fetchLiveBaseline, fetchLiveBaselineMiss, initialBaselineState,
      applyCodeSets, setA, List.lookup]
  have h2 := fetchLiveBaseline_cached_no_refetch initialBaselineState
    ⟨[("14100287", 7)], [(0, 1)]⟩ "14100287" [] [] (some (7, 0)) none 7 true
    h1 (by norm_num)
  rw [h1]
  exact h2

/-- Bounds of `base * (1 + n * a)` for `|n| ≤ 1`, `0 ≤ a ≤ 1`,
`0 ≤ base`. -/
theorem synth_bounds_aux (base n a : ℚ) (hb : 0 ≤ base)
    (hn1 : -1 ≤ n) (hn2 : n ≤ 1) (ha0 : 0 ≤ a) :
    (1 - a) * base ≤ base * (1 + n * a) ∧
    base * (1 + n * a) ≤ (1 + a) * base := by
  constructor
  · nlinarith [mul_nonneg (mul_nonneg hb ha0) (by linarith : (0:ℚ) ≤ 1 + n)]
  · nlinarith [mul_nonneg (mul_nonneg hb ha0) (by linarith : (0:ℚ) ≤ 1 - n)]

/-- The product of two values of absolute value at most 1 lies in
`[-1, 1]`. -/
theorem noise_in_unit_interval (sinq cosq : ℚ → ℚ)
    (hs : ∀ x, |sinq x| ≤ 1) (hc : ∀ x, |cosq x| ≤ 1) (u v : ℚ) :
    -1 ≤ sinq u * cosq v ∧ sinq u * cosq v ≤ 1 := by
  have h : |sinq u * cosq v| ≤ 1 := by
    rw [abs_mul]
    exact mul_le_one₀ (hs u) (abs_nonneg _) (hc v)
  exact abs_le.mp h

/-- C1 counterexample: with noise functions bounded by 1 in absolute value
(`sin(x)·cos(y)` attains `1` at `x = π/2, y = 0`, so `n₁ = 1` is reached at
suitable real coordinates), the part_001 `getMetricsForPoints` value for the
non-Housing category `Demographics` at baseline `100` is `120` — computed
with the uniform amplitude `0.2`, not the claimed `0.18` — and lies outside
the claimed interval `[0.82·baseline, 1.18·baseline]`. -/
theorem gmfp_amplitude_cex :
    gmfpVal (fun _ => 1) (fun _ => 1) .PROVINCE "Demographics" 100 43 (-81)
      = 120 ∧
    (120 : ℚ) ≠ 100 * (1 + (1 : ℚ) * (18/100)) ∧
    ¬ ((120 : ℚ) ≤ (118/100) * 100) := by
  refine ⟨?_, by norm_num, by norm_num⟩
  simp only [gmfpVal, seedOf]
  norm_num

/-- C1 (amended): in `enrichFeature` (part_000), a non-Housing product's
feature-level metric equals `base · (1 + 0.18·n)` with `n ∈ [-1,1]` and its
parent-level metric equals `base · (1 + 0.05·p)`, Housing uses `0.25`
(feature) and `0.10` (parent), with no clamping — so for `base ≥ 0` the
feature value lies in `[0.82·base, 1.18·base]` and is nonnegative; in
`getMetricsForPoints` (part_001), every category uses the uniform amplitude
`0.2` with a `Math.max(0, ·)` clamp, so the stored value lies in
`[0.8·base, 1.2·base]` and is nonnegative. -/
theorem metric_synthesis_amplitudes (sinq cosq : ℚ → ℚ)
    (hs : ∀ x, |sinq x| ≤ 1) (hc : ∀ x, |cosq x| ≤ 1)
    (level : LODLevel) (category : String) (base lat lng : ℚ)
    (hb : 0 ≤ base) (hcat : category ≠ "Housing") :
    (∃ n, -1 ≤ n ∧ n ≤ 1 ∧
      enrichFinalVal sinq cosq level category base lat lng
        = base * (1 + n * (18/100))) ∧
    (82/100) * base ≤ enrichFinalVal sinq cosq level category base lat lng ∧
    enrichFinalVal sinq cosq level category base lat lng ≤ (118/100) * base ∧
    0 ≤ enrichFinalVal sinq cosq level category base lat lng ∧
    (∃ p, -1 ≤ p ∧ p ≤ 1 ∧
      enrichParentVal sinq cosq level category base lat lng
        = base * (1 + p * (5/100))) ∧
    (∃ n, -1 ≤ n ∧ n ≤ 1 ∧
      enrichFinalVal sinq cosq level "Housing" base lat lng
        = base * (1 + n * (25/100))) ∧
    (∃ p, -1 ≤ p ∧ p ≤ 1 ∧
      enrichParentVal sinq cosq level "Housing" base lat lng
        = base * (1 + p * (1/10))) ∧
    0 ≤ gmfpVal sinq cosq level category base lat lng ∧
    (8/10) * base ≤ gmfpVal sinq cosq level category base lat lng ∧
    gmfpVal sinq cosq level category base lat lng ≤ (12/10) * base := by
  obtain ⟨hn1, hn2⟩ := noise_in_unit_interval sinq cosq hs hc
    (lat * enrichFreq level + seedOf category)
    (lng * enrichFreq level + seedOf category)
  obtain ⟨hp1, hp2⟩ := noise_in_unit_interval sinq cosq hs hc
    (lat * (enrichFreq level * (2/10)) + seedOf category)
    (lng * (enrichFreq level * (2/10)) + seedOf category)
  obtain ⟨hhn1, hhn2⟩ := noise_in_unit_interval sinq cosq hs hc
    (lat * enrichFreq level + seedOf "Housing")
    (lng * enrichFreq level + seedOf "Housing")
  obtain ⟨hhp1, hhp2⟩ := noise_in_unit_interval sinq cosq hs hc
    (lat * (enrichFreq level * (2/10)) + seedOf "Housing")
    (lng * (enrichFreq level * (2/10)) + seedOf "Housing")
  obtain ⟨hgn1, hgn2⟩ := noise_in_unit_interval sinq cosq hs hc
    (lat * (if level = .DA then (120:ℚ) else 4) + seedOf category)
    (lng * (if level = .DA then (120:ℚ) else 4) + seedOf category)
  have heq : enrichFinalVal sinq cosq level category base lat lng
      = base * (1 + (sinq (lat * enrichFreq level + seedOf category) *
          cosq (lng * enrichFreq level + seedOf category)) * (18/100)) := by
    simp only [enrichFinalVal, if_neg hcat]
  have hpeq : enrichParentVal sinq cosq level category base lat lng
      = base * (1 + (sinq (lat * (enrichFreq level * (2/10)) + seedOf category) *
          cosq (lng * (enrichFreq level * (2/10)) + seedOf category)) * (5/100)) := by
    simp only [enrichParentVal, if_neg hcat]
  have hheq : enrichFinalVal sinq cosq level "Housing" base lat lng
      = base * (1 + (sinq (lat * enrichFreq level + seedOf "Housing") *
          cosq (lng * enrichFreq level + seedOf "Housing")) * (25/100)) := by
    simp [enrichFinalVal]
  have hhpeq : enrichParentVal sinq cosq level "Housing" base lat lng
      = base * (1 + (sinq (lat * (enrichFreq level * (2/10)) + seedOf "Housing") *
          cosq (lng * (enrichFreq level * (2/10)) + seedOf "Housing")) * (1/10)) := by
    simp [enrichParentVal]
  have hgeq : gmfpVal sinq cosq level category base lat lng
      = max 0 (base * (1 + (sinq (lat * (if level = .DA then (120:ℚ) else 4) + seedOf category) *
          cosq (lng * (if level = .DA then (120:ℚ) else 4) + seedOf category)) * (2/10))) := by
    simp only [gmfpVal]
  obtain ⟨hlo, hhi⟩ := synth_bounds_aux base _ (18/100) hb hn1 hn2 (by norm_num)
  obtain ⟨hglo, hghi⟩ := synth_bounds_aux base _ (2/10) hb hgn1 hgn2 (by norm_num)
  refine ⟨⟨_, hn1, hn2, heq⟩, ?_, ?_, ?_, ⟨_, hp1, hp2, hpeq⟩,
          ⟨_, hhn1, hhn2, hheq⟩, ⟨_, hhp1, hhp2, hhpeq⟩, ?_, ?_, ?_⟩
  · rw [heq]; linarith
  · rw [heq]; linarith
  · rw [heq]; nlinarith
  · rw [hgeq]; exact le_max_left _ _
  · rw [hgeq]
    refine le_trans ?_ (le_max_right _ _)
    linarith
  · rw [hgeq]
    refine max_le ?_ ?_
    · linarith
    · linarith

/-- Witness for C1 (amended), at constant-zero noise, tier `PROVINCE`,
category `Demographics`, baseline `100`. -/
theorem metric_synthesis_amplitudes_witness :
    (82/100 : ℚ) * 100 ≤
      enrichFinalVal (fun _ => 0) (fun _ => 0) .PROVINCE "Demographics" 100 43 (-81) ∧
    enrichFinalVal (fun _ => 0) (fun _ => 0) .PROVINCE "Demographics" 100 43 (-81)
      ≤ (118/100) * 100 ∧
    0 ≤ gmfpVal (fun _ => 0) (fun _ => 0) .PROVINCE "Demographics" 100 43 (-81) ∧
    gmfpVal (fun _ => 0) (fun _ => 0) .PROVINCE "Demographics" 100 43 (-81)
      ≤ (12/10) * 100 := by
  have h := metric_synthesis_amplitudes (fun _ => 0) (fun _ => 0)
    (fun _ => by norm_num) (fun _ => by norm_num)
    .PROVINCE "Demographics" 100 43 (-81) (by norm_num) (by decide)
  obtain ⟨-, h2, h3, -, -, -, -, h8, -, h10⟩ := h
  exact ⟨h2, h3, h8, h10⟩

/-- C10 counterexample: `getCentroid` is **not** total — a MultiPolygon with
an empty sub-polygon list (the later `polygon[0]` indexing of `undefined`)
and a MultiPolygon containing a sub-polygon with no rings
(`ring.forEach` on `undefined`) both raise a runtime `TypeError`, so the
error branch is reachable. -/
theorem getCentroid_crash_cex :
    getCentroid (.multiPolygon []) = .error () ∧
    getCentroid (.multiPolygon [[]]) = .error () :=
  ⟨rfl, rfl⟩

/-- `scanPolys` never raises when every scanned sub-polygon has at least
one ring. -/
theorem scanPolys_ok_of_rings (ys : List (List GeoRing))
    (hys : ∀ p ∈ ys, p ≠ []) :
    ∀ acc : Option ℚ × List GeoRing, ∃ r, scanPolys ys acc = .ok r := by
  induction ys with
  | nil => intro acc; exact ⟨acc, rfl⟩
  | cons poly rest ih =>
      intro acc
      obtain ⟨maxArea, largest⟩ := acc
      cases hp : poly with
      | nil => exact absurd hp (hys poly (by simp))
      | cons ring more =>
          have hrest : ∀ p ∈ rest, p ≠ [] := fun p hm => hys p (by simp [hm])
          simp only [scanPolys]
          by_cases hgt : areaGt (bboxArea ring) maxArea = true
          · rw [if_pos hgt]; exact ih hrest _
          · rw [if_neg hgt]; exact ih hrest _

/-- C10 (amended): `getCentroid` returns a value (a point or `None`) for
every geometry **except** a MultiPolygon whose sub-polygon list is empty or
that contains a sub-polygon with no rings (a missing outer ring) — those
inputs raise a runtime `TypeError` (see the counterexample).  In
particular, a sub-polygon whose outer ring is present but *empty* does not
raise. -/
theorem getCentroid_total_on_wellformed (g : Geometry)
    (hok : ∀ polys, g = .multiPolygon polys →
      polys ≠ [] ∧ ∀ p ∈ polys, p ≠ []) :
    ∃ r : Option (ℚ × ℚ), getCentroid g = .ok r := by
  cases g with
  | noCoords => exact ⟨none, rfl⟩
  | other => exact ⟨none, rfl⟩
  | polygon rings => exact ⟨centroidFromRings rings, rfl⟩
  | multiPolygon polys =>
      obtain ⟨hne, hall⟩ := hok polys rfl
      cases polys with
      | nil => exact absurd rfl hne
      | cons p0 rest =>
          obtain ⟨r, hr⟩ := scanPolys_ok_of_rings (p0 :: rest) hall (some 0, p0)
          refine ⟨centroidFromRings r.2, ?_⟩
          simp only [getCentroid, hr]

/-- Witness for C10 (amended): a well-formed two-sub-polygon MultiPolygon
(one of them with an *empty* outer ring) yields a value without raising. -/
theorem getCentroid_total_on_wellformed_witness :
    ∃ r : Option (ℚ × ℚ),
      getCentroid (.multiPolygon [[[(0, 0), (2, 0), (2, 2), (0, 2)]], [[]]])
        = .ok r := by
  refine getCentroid_total_on_wellformed _ ?_
  intro polys h
  injection h with h2
  subst h2
  refine ⟨by simp, ?_⟩
  intro p hp
  simp only [List.mem_cons, List.not_mem_nil, or_false] at hp
  rcases hp with rfl | rfl <;> simp

/-- A running-`min` fold never exceeds its initial value. -/
theorem foldl_min_le_init {α : Type} (f : α → ℚ) (x : ℚ) (cs : List α) :
    cs.foldl (fun a p => min a (f p)) x ≤ x := by
  induction cs generalizing x with
  | nil => exact le_refl x
  | cons c cs ih => exact le_trans (ih (min x (f c))) (min_le_left _ _)

/-- A running-`max` fold is at least its initial value. -/
theorem init_le_foldl_max {α : Type} (f : α → ℚ) (x : ℚ) (cs : List α) :
    x ≤ cs.foldl (fun a p => max a (f p)) x := by
  induction cs generalizing x with
  | nil => exact le_refl x
  | cons c cs ih => exact le_trans (le_max_left _ _) (ih (max x (f c)))

/-- Spec-side bounding-box areas are nonnegative. -/
theorem specBboxArea_nonneg (poly : List GeoRing) : 0 ≤ specBboxArea poly := by
  cases poly with
  | nil => simp [specBboxArea]
  | cons ring rs =>
      cases ring with
      | nil => simp [specBboxArea]
      | cons c cs =>
          simp only [specBboxArea]
          apply mul_nonneg
          · rw [sub_nonneg]
            exact le_trans (foldl_min_le_init Prod.fst c.1 cs)
              (init_le_foldl_max Prod.fst c.1 cs)
          · rw [sub_nonneg]
            exact le_trans (foldl_min_le_init Prod.snd c.2 cs)
              (init_le_foldl_max Prod.snd c.2 cs)

/-- Characterisation of the MultiPolygon selection loop on well-formed
input (every scanned sub-polygon has a nonempty outer ring): the scan never
raises; if no scanned sub-polygon beats the incoming running maximum the
accumulator is returned unchanged, and otherwise the result is the *first*
sub-polygon attaining the overall maximal bounding-box area among those
exceeding the incoming maximum. -/
theorem scanPolys_char (ys : List (List GeoRing)) :
    ∀ (a : ℚ) (l : List GeoRing),
      (∀ p ∈ ys, ∃ r rs, p = r :: rs ∧ r ≠ []) →
      (scanPolys ys (some a, l) = .ok (some a, l) ∧
        ∀ p ∈ ys, specBboxArea p ≤ a) ∨
      (∃ pre L post, ys = pre ++ L :: post ∧
        scanPolys ys (some a, l) = .ok (some (specBboxArea L), L) ∧
        a < specBboxArea L ∧
        (∀ p ∈ pre, specBboxArea p < specBboxArea L) ∧
        (∀ p ∈ post, specBboxArea p ≤ specBboxArea L)) := by
  induction ys with
  | nil =>
      intro a l _
      left
      exact ⟨rfl, by simp⟩
  | cons y ys ih =>
      intro a l hwf
      obtain ⟨r, rs, hy, hr⟩ := hwf y (by simp)
      have hwf' : ∀ p ∈ ys, ∃ r rs, p = r :: rs ∧ r ≠ [] :=
        fun p hm => hwf p (by simp [hm])
      obtain ⟨c, cs, hc⟩ : ∃ c cs, r = c :: cs := by
        cases r with
        | nil => exact absurd rfl hr
        | cons c cs => exact ⟨c, cs, rfl⟩
      subst hy
      subst hc
      have hbb : bboxArea (c :: cs) = some (specBboxArea ((c :: cs) :: rs)) := rfl
      by_cases ha : a < specBboxArea ((c :: cs) :: rs)
      · have hgt : areaGt (some (specBboxArea ((c :: cs) :: rs))) (some a)
            = true := by simp [areaGt, ha]
        have hstep : scanPolys (((c :: cs) :: rs) :: ys) (some a, l) =
            scanPolys ys (some (specBboxArea ((c :: cs) :: rs)), (c :: cs) :: rs) := by
          simp only [scanPolys, hbb, hgt, if_true]
        rcases ih (specBboxArea ((c :: cs) :: rs)) ((c :: cs) :: rs) hwf' with
          ⟨heq, hall⟩ | ⟨pre, L, post, hsplit, heq, hlt, hpre, hpost⟩
        · right
          exact ⟨[], (c :: cs) :: rs, ys, by simp, by rw [hstep, heq], ha,
            by simp, hall⟩
        · right
          refine ⟨((c :: cs) :: rs) :: pre, L, post,
            by rw [hsplit, List.cons_append],
            by rw [hstep, heq], lt_trans ha hlt, ?_, hpost⟩
          intro p hp
          rcases List.mem_cons.mp hp with rfl | hp
          · exact hlt
          · exact hpre p hp
      · have hgt : areaGt (some (specBboxArea ((c :: cs) :: rs))) (some a)
            = false := by simp [areaGt, ha]
        have hAle : specBboxArea ((c :: cs) :: rs) ≤ a := not_lt.mp ha
        have hstep : scanPolys (((c :: cs) :: rs) :: ys) (some a, l) =
            scanPolys ys (some a, l) := by
          simp only [scanPolys, hbb, hgt, Bool.false_eq_true, if_false]
        rcases ih a l hwf' with
          ⟨heq, hall⟩ | ⟨pre, L, post, hsplit, heq, hlt, hpre, hpost⟩
        · left
          refine ⟨by rw [hstep, heq], ?_⟩
          intro p hp
          rcases List.mem_cons.mp hp with rfl | hp
          · exact hAle
          · exact hall p hp
        · right
          refine ⟨((c :: cs) :: rs) :: pre, L, post,
            by rw [hsplit, List.cons_append],
            by rw [hstep, heq], hlt, ?_, hpost⟩
          intro p hp
          rcases List.mem_cons.mp hp with rfl | hp
          · exact lt_of_le_of_lt hAle hlt
          · exact hpre p hp

/-- `find?` over a front segment on which the predicate fails returns the
first later hit. -/
theorem find?_append_first {α : Type} (p : α → Bool) (pre : List α) (L : α)
    (post : List α) (hpre : ∀ x ∈ pre, p x = false) (hL : p L = true) :
    (pre ++ L :: post).find? p = some L := by
  induction pre with
  | nil => simp [List.find?_cons_of_pos, hL]
  | cons x xs ih =>
      rw [List.cons_append, List.find?_cons_of_neg]
      · exact ih (fun z hz => hpre z (by simp [hz]))
      · simp [hpre x (by simp)]

/-- C3: for every well-formed MultiPolygon (nonempty sub-polygon list, each
sub-polygon with a nonempty outer ring), `getCentroid` returns the
Polygon-rule centroid of exactly the sub-polygon `specSelect` picks — the
first sub-polygon whose axis-aligned bounding-box area is at least that of
every other (largest area, first-encountered winning exact ties) — and the
returned pair is `(latitude, longitude)`: the mean of the ring's *second*
coordinates first, then the mean of the first coordinates, even though the
input ring stores `(longitude, latitude)`. -/
theorem multiPolygon_centroid_spec (polys : List (List GeoRing))
    (hne : polys ≠ [])
    (hwf : ∀ p ∈ polys, ∃ r rs, p = r :: rs ∧ r ≠ []) :
    ∃ L r rs, specSelect polys = some L ∧ L = r :: rs ∧
      getCentroid (.multiPolygon polys) =
        .ok (some ((r.map Prod.snd).sum / r.length,
                   (r.map Prod.fst).sum / r.length)) := by
  cases polys with
  | nil => exact absurd rfl hne
  | cons p0 rest =>
      rcases scanPolys_char (p0 :: rest) 0 p0 hwf with
        ⟨heq, hall⟩ | ⟨pre, L, post, hsplit, heq, hlt, hpre, hpost⟩
      · -- nothing beat the initial maxArea = 0: every area is 0 and the
        -- first sub-polygon is kept, which is also the first maximal one
        have hzero : ∀ p ∈ p0 :: rest, specBboxArea p = 0 := fun p hm =>
          le_antisymm (hall p hm) (specBboxArea_nonneg p)
        have hfind : specSelect (p0 :: rest) = some p0 := by
          unfold specSelect
          apply List.find?_cons_of_pos
          simp only [List.all_eq_true, decide_eq_true_eq]
          intro q hq
          rw [hzero q hq, hzero p0 (by simp)]
        obtain ⟨r, rs, hp0, hr⟩ := hwf p0 (by simp)
        refine ⟨p0, r, rs, hfind, hp0, ?_⟩
        simp only [getCentroid, heq]
        rw [hp0]
        simp [centroidFromRings, hr]
      · have hLmem : L ∈ p0 :: rest := by
          rw [hsplit]
          exact List.mem_append.mpr (Or.inr (by simp))
        have hmax : ∀ q ∈ p0 :: rest, specBboxArea q ≤ specBboxArea L := by
          intro q hq
          rw [hsplit] at hq
          rcases List.mem_append.mp hq with h | h
          · exact le_of_lt (hpre q h)
          · rcases List.mem_cons.mp h with rfl | h
            · exact le_refl _
            · exact hpost q h
        have hfind : specSelect (p0 :: rest) = some L := by
          unfold specSelect
          conv_lhs => rw [hsplit]
          apply find?_append_first
          · intro x hx
            have hxlt : specBboxArea x < specBboxArea L := hpre x hx
            have : ¬ ((p0 :: rest).all
                (fun q => decide (specBboxArea q ≤ specBboxArea x)) = true) := by
              simp only [List.all_eq_true, decide_eq_true_eq]
              push_neg
              exact ⟨L, hLmem, by linarith⟩
            rw [hsplit] at this
            exact Bool.not_eq_true _ ▸ eq_false_of_ne_true this
          · rw [← hsplit]
            simp only [List.all_eq_true, decide_eq_true_eq]
            exact hmax
        obtain ⟨r, rs, hL, hr⟩ := hwf L hLmem
        refine ⟨L, r, rs, hfind, hL, ?_⟩
        simp only [getCentroid, heq]
        rw [hL]
        simp [centroidFromRings, hr]

/-- Witness for C3: of two sub-polygons with bounding-box areas `4` and
`1`, the first (larger) one is selected and its vertex mean is returned
latitude-first. -/
theorem multiPolygon_centroid_spec_witness :
    ∃ L r rs,
      specSelect [[[((0:ℚ), (0:ℚ)), (2, 0), (2, 2), (0, 2)]],
                  [[(10, 10), (11, 10), (11, 11), (10, 11)]]] = some L ∧
      L = r :: rs ∧
      getCentroid (.multiPolygon
        [[[((0:ℚ), (0:ℚ)), (2, 0), (2, 2), (0, 2)]],
         [[(10, 10), (11, 10), (11, 11), (10, 11)]]]) =
        .ok (some ((r.map Prod.snd).sum / r.length,
                   (r.map Prod.fst).sum / r.length)) := by
  apply multiPolygon_centroid_spec
  · simp
  · intro p hp
    simp only [List.mem_cons, List.not_mem_nil, or_false] at hp
    rcases hp with rfl | rfl
    · exact ⟨_, _, rfl, by simp⟩
    · exact ⟨_, _, rfl, by simp⟩

/-- `chunksOf` on the empty list. -/
theorem chunksOf_nil {α : Type} (c : ℕ) : chunksOf c ([] : List α) = [] := by
  rw [chunksOf]

/-- `chunksOf` on a nonempty list with positive capacity: first `c`
elements, then the chunks of the rest. -/
theorem chunksOf_cons {α : Type} (c : ℕ) (hc : c ≠ 0) (x : α) (xs : List α) :
    chunksOf c (x :: xs) =
      (x :: xs).take c :: chunksOf c ((x :: xs).drop c) := by
  rw [chunksOf]
  simp [hc]

/-- Concatenating the chunks recovers the original list. -/
theorem chunksOf_flatten {α : Type} (c : ℕ) (hc : 0 < c) (l : List α) :
    (chunksOf c l).flatten = l := by
  have H : ∀ n (l : List α), l.length ≤ n → (chunksOf c l).flatten = l := by
    intro n
    induction n with
    | zero =>
        intro l hl
        have hnil : l = [] := List.length_eq_zero.mp (Nat.le_zero.mp hl)
        subst hnil
        simp [chunksOf_nil]
    | succ n ih =>
        intro l hl
        cases l with
        | nil => simp [chunksOf_nil]
        | cons x xs =>
            rw [chunksOf_cons c (Nat.pos_iff_ne_zero.mp hc)]
            have hdrop : ((x :: xs).drop c).length ≤ n := by
              rw [List.length_drop]
              simp only [List.length_cons] at hl ⊢
              omega
            simp only [List.flatten_cons]
            rw [ih ((x :: xs).drop c) hdrop, List.take_append_drop]
  exact H l.length l le_rfl

/-- Nat division fact behind the batch count: prepending one full batch to
the chunking of the remainder matches the ceiling formula. -/
theorem nat_chunk_count (len c : ℕ) (hc : 0 < c) (hlen : 0 < len) :
    (len - c + c - 1) / c + 1 = (len + c - 1) / c := by
  rcases le_or_lt len c with h | h
  · have h1 : len - c = 0 := Nat.sub_eq_zero_of_le h
    have h2 : (0 + c - 1) / c = 0 := Nat.div_eq_of_lt (by omega)
    have h3 : len + c - 1 = (len - 1) + c := by omega
    have h4 : (len - 1) / c = 0 := Nat.div_eq_of_lt (by omega)
    rw [h1, h2, h3, Nat.add_div_right _ hc, h4]
  · have h2 : len - c + c - 1 = len - 1 := by omega
    have h3 : len + c - 1 = (len - 1) + c := by omega
    rw [h2, h3, Nat.add_div_right _ hc]

/-- The number of chunks is `⌈len / c⌉`. -/
theorem chunksOf_length {α : Type} (c : ℕ) (hc : 0 < c) (l : List α) :
    (chunksOf c l).length = (l.length + c - 1) / c := by
  have H : ∀ n (l : List α), l.length ≤ n →
      (chunksOf c l).length = (l.length + c - 1) / c := by
    intro n
    induction n with
    | zero =>
        intro l hl
        have hnil : l = [] := List.length_eq_zero.mp (Nat.le_zero.mp hl)
        subst hnil
        rw [chunksOf_nil]
        simp [Nat.div_eq_of_lt (show c - 1 < c by omega)]
    | succ n ih =>
        intro l hl
        cases l with
        | nil =>
            rw [chunksOf_nil]
            simp [Nat.div_eq_of_lt (show c - 1 < c by omega)]
        | cons x xs =>
            rw [chunksOf_cons c (Nat.pos_iff_ne_zero.mp hc)]
            have hdrop : ((x :: xs).drop c).length ≤ n := by
              rw [List.length_drop]
              simp only [List.length_cons] at hl ⊢
              omega
            simp only [List.length_cons]
            rw [ih ((x :: xs).drop c) hdrop, List.length_drop]
            exact nat_chunk_count (x :: xs).length c hc (by simp)
  exact H l.length l le_rfl

/-- Prepending one exactly-full batch. -/
theorem chunksOf_append_full {α : Type} (c : ℕ) (hc : 0 < c)
    (l r : List α) (hl : l.length = c) :
    chunksOf c (l ++ r) = l :: chunksOf c r := by
  cases l with
  | nil =>
      rw [← hl] at hc
      simp at hc
  | cons x xs =>
      rw [show (x :: xs) ++ r = x :: (xs ++ r) from rfl,
          chunksOf_cons c (Nat.pos_iff_ne_zero.mp hc),
          show x :: (xs ++ r) = (x :: xs) ++ r from rfl,
          List.take_left' hl, List.drop_left' hl]

/-- Every chunk except possibly the last has exactly `c` elements. -/
theorem chunksOf_dropLast_length {α : Type} (c : ℕ) (hc : 0 < c)
    (l : List α) : ∀ ch ∈ (chunksOf c l).dropLast, ch.length = c := by
  have H : ∀ n (l : List α), l.length ≤ n →
      ∀ ch ∈ (chunksOf c l).dropLast, ch.length = c := by
    intro n
    induction n with
    | zero =>
        intro l hl
        have hnil : l = [] := List.length_eq_zero.mp (Nat.le_zero.mp hl)
        subst hnil
        simp [chunksOf_nil]
    | succ n ih =>
        intro l hl
        cases l with
        | nil => simp [chunksOf_nil]
        | cons x xs =>
            rw [chunksOf_cons c (Nat.pos_iff_ne_zero.mp hc)]
            cases hd : (x :: xs).drop c with
            | nil =>
                rw [chunksOf_nil]
                simp
            | cons y ys =>
                have hclen : c < (x :: xs).length := by
                  by_contra hcon
                  push_neg at hcon
                  rw [List.drop_eq_nil_of_le hcon] at hd
                  exact List.noConfusion hd
                have hdrop : (y :: ys).length ≤ n := by
                  rw [← hd, List.length_drop]
                  simp only [List.length_cons] at hl ⊢
                  omega
                have hrest : chunksOf c (y :: ys) ≠ [] := by
                  rw [chunksOf_cons c (Nat.pos_iff_ne_zero.mp hc)]
                  exact List.cons_ne_nil _ _
                rw [List.dropLast_cons_of_ne_nil hrest]
                intro ch hch
                rcases List.mem_cons.mp hch with rfl | hch
                · rw [List.length_take]
                  exact Nat.min_eq_left (le_of_lt hclen)
                · exact ih (y :: ys) hdrop ch hch
  exact H l.length l le_rfl

/-- The last chunk of a nonempty list has `len mod c` elements (or `c`
when `c` divides `len`). -/
theorem chunksOf_getLast_length {α : Type} (c : ℕ) (hc : 0 < c)
    (l : List α) (hl : l ≠ []) :
    ∀ ch, (chunksOf c l).getLast? = some ch →
      ch.length = if l.length % c = 0 then c else l.length % c := by
  have H : ∀ n (l : List α), l.length ≤ n → l ≠ [] →
      ∀ ch, (chunksOf c l).getLast? = some ch →
        ch.length = if l.length % c = 0 then c else l.length % c := by
    intro n
    induction n with
    | zero =>
        intro l hlen hne
        exact absurd (List.length_eq_zero.mp (Nat.le_zero.mp hlen)) hne
    | succ n ih =>
        intro l hlen hne
        cases l with
        | nil => exact absurd rfl hne
        | cons x xs =>
            rw [chunksOf_cons c (Nat.pos_iff_ne_zero.mp hc)]
            cases hd : (x :: xs).drop c with
            | nil =>
                rw [chunksOf_nil]
                intro ch hch
                simp only [List.getLast?_singleton, Option.some.injEq] at hch
                subst hch
                have hle : (x :: xs).length ≤ c := by
                  by_contra hcon
                  push_neg at hcon
                  have hne2 : (x :: xs).drop c ≠ [] := by
                    intro hx
                    rw [List.drop_eq_nil_iff] at hx
                    omega
                  exact hne2 hd
                rw [List.length_take, Nat.min_eq_right hle]
                rcases eq_or_lt_of_le hle with heq | hlt
                · rw [heq, Nat.mod_self, if_pos rfl]
                · rw [Nat.mod_eq_of_lt hlt, if_neg (by simp)]
            | cons y ys =>
                have hclen : c < (x :: xs).length := by
                  by_contra hcon
                  push_neg at hcon
                  rw [List.drop_eq_nil_of_le hcon] at hd
                  exact List.noConfusion hd
                have hdrop : (y :: ys).length ≤ n := by
                  rw [← hd, List.length_drop]
                  simp only [List.length_cons] at hlen ⊢
                  omega
                intro ch hch
                rw [chunksOf_cons c (Nat.pos_iff_ne_zero.mp hc),
                  List.getLast?_cons_cons,
                  ← chunksOf_cons c (Nat.pos_iff_ne_zero.mp hc)] at hch
                have hres := ih (y :: ys) hdrop (List.cons_ne_nil _ _) ch hch
                have hmod : (y :: ys).length % c = (x :: xs).length % c := by
                  rw [← hd, List.length_drop]
                  conv_rhs => rw [show (x :: xs).length
                    = ((x :: xs).length - c) + c
                    from (Nat.sub_add_cancel (le_of_lt hclen)).symm]
                  rw [Nat.add_mod_right]
                rw [hmod] at hres
                exact hres
  exact H l.length l le_rfl hl

/-- The `streamShapes` loop, run to completion on crash-free features,
computes exactly the `c`-chunking of the qualifying features appended to
the incoming accumulator chunk. -/
theorem streamLoop_eq_chunksOf (c : ℕ) (f : ℚ) (bounds : Bounds)
    (hc : 0 < c) :
    ∀ (fs : List Feature) (chunk : List Feature),
      chunk.length < c →
      (∀ ft ∈ fs, geomOk ft = true) →
      streamLoop c f bounds fs chunk =
        .ok (chunksOf c (chunk ++ fs.filter (qualifies f bounds))) := by
  intro fs
  induction fs with
  | nil =>
      intro chunk hlen _
      simp only [streamLoop, List.filter_nil, List.append_nil]
      cases chunk with
      | nil => simp [chunksOf_nil]
      | cons x xs =>
          rw [chunksOf_cons c (Nat.pos_iff_ne_zero.mp hc),
            List.take_of_length_le (le_of_lt hlen),
            List.drop_eq_nil_of_le (le_of_lt hlen), chunksOf_nil]
          simp
  | cons ft fs ih =>
      intro chunk hlen hok
      have hokft : geomOk ft = true := hok ft (by simp)
      have hokfs : ∀ x ∈ fs, geomOk x = true := fun x hx => hok x (by simp [hx])
      cases hg : ft.geometry with
      | none =>
          have hq : qualifies f bounds ft = false := by simp [qualifies, hg]
          simp only [streamLoop, hg, List.filter_cons, hq, Bool.false_eq_true,
            if_false]
          exact ih chunk hlen hokfs
      | some g =>
          cases hcen : getCentroid g with
          | error e =>
              exfalso
              have := hokft
              simp [geomOk, hg, hcen] at this
          | ok copt =>
              cases copt with
              | none =>
                  have hq : qualifies f bounds ft = false := by
                    simp [qualifies, hg, hcen]
                  simp only [streamLoop, hg, hcen, List.filter_cons, hq,
                    Bool.false_eq_true, if_false]
                  exact ih chunk hlen hokfs
              | some ctr =>
                  by_cases hib : isPointInBounds f ctr.1 ctr.2 bounds = true
                  · have hq : qualifies f bounds ft = true := by
                      simp [qualifies, hg, hcen, hib]
                    have hassoc : chunk ++ ft :: fs.filter (qualifies f bounds)
                        = (chunk ++ [ft]) ++ fs.filter (qualifies f bounds) := by
                      simp
                    by_cases hfull : c ≤ (chunk ++ [ft]).length
                    · have hlen' : (chunk ++ [ft]).length = c := by
                        simp only [List.length_append, List.length_cons,
                          List.length_nil] at hfull ⊢
                        omega
                      simp only [streamLoop, hg, hcen, hib, if_true, hfull]
                      rw [ih [] (by simpa using hc) hokfs]
                      simp only [List.nil_append]
                      rw [List.filter_cons, if_pos hq, hassoc,
                        chunksOf_append_full c hc _ _ hlen']
                    · have hlen'' : (chunk ++ [ft]).length < c := by omega
                      simp only [streamLoop, hg, hcen, hib, if_true, hfull,
                        Bool.false_eq_true, if_false]
                      rw [ih (chunk ++ [ft]) hlen'' hokfs,
                        List.filter_cons, if_pos hq, hassoc]
                  · have hq : qualifies f bounds ft = false := by
                      simp only [qualifies, hg, hcen]
                      exact Bool.not_eq_true _ ▸ eq_false_of_ne_true hib
                    simp only [streamLoop, hg, hcen, List.filter_cons, hq,
                      Bool.false_eq_true, if_false]
                    rw [if_neg hib]
                    exact ih chunk hlen hokfs

/-- C7: on a crash-free feature collection, `streamShapes` with capacity
`c > 0` emits exactly the `c`-chunking of the qualifying features (those
with a centroid passing the bounds filter), in the collection's original
order: the concatenation of the batches is the qualifying subsequence,
there are `⌈N/c⌉` batches, every non-final batch has exactly `c` elements,
the final batch has `N mod c` elements (or `c` when `c ∣ N`), and a walk
with zero qualifying features completes with no batches and no error. -/
theorem streamTier_batches (c : ℕ) (f : ℚ) (bounds : Bounds)
    (features : List Feature) (hc : 0 < c)
    (hok : ∀ ft ∈ features, geomOk ft = true) :
    streamShapesChunks c f bounds features =
      .ok (chunksOf c (features.filter (qualifies f bounds))) ∧
    (chunksOf c (features.filter (qualifies f bounds))).flatten
      = features.filter (qualifies f bounds) ∧
    (chunksOf c (features.filter (qualifies f bounds))).length
      = ((features.filter (qualifies f bounds)).length + c - 1) / c ∧
    (∀ ch ∈ (chunksOf c (features.filter (qualifies f bounds))).dropLast,
      ch.length = c) ∧
    (∀ ch, (chunksOf c (features.filter (qualifies f bounds))).getLast?
        = some ch →
      ch.length =
        if (features.filter (qualifies f bounds)).length % c = 0 then c
        else (features.filter (qualifies f bounds)).length % c) ∧
    (features.filter (qualifies f bounds) = [] →
      streamShapesChunks c f bounds features = .ok []) := by
  have h1 := streamLoop_eq_chunksOf c f bounds hc features []
    (by simpa using hc) hok
  simp only [List.nil_append] at h1
  refine ⟨h1, chunksOf_flatten c hc _, chunksOf_length c hc _,
    chunksOf_dropLast_length c hc _, ?_, ?_⟩
  · intro ch hch
    by_cases hfe : features.filter (qualifies f bounds) = []
    · rw [hfe, chunksOf_nil] at hch
      simp at hch
    · exact chunksOf_getLast_length c hc _ hfe ch hch
  · intro hfe
    show streamLoop c f bounds features [] = .ok []
    rw [h1, hfe, chunksOf_nil]

/-- Witness for C7: 130 in-bounds features streamed with capacity 50 yield
exactly 3 batches, every non-final batch of size 50 and the final one of
size 30. -/
theorem streamTier_batches_witness :
    streamShapesChunks 50 (1/10) ⟨1, -1, 1, -1⟩
        (List.replicate 130 ⟨some (.polygon [[(0, 0)]])⟩) =
      .ok (chunksOf 50 (List.replicate 130 ⟨some (.polygon [[(0, 0)]])⟩)) ∧
    (chunksOf 50 (List.replicate 130
      (⟨some (.polygon [[(0, 0)]])⟩ : Feature))).length = 3 ∧
    (∀ ch ∈ (chunksOf 50 (List.replicate 130
      (⟨some (.polygon [[(0, 0)]])⟩ : Feature))).dropLast, ch.length = 50) ∧
    (∀ ch, (chunksOf 50 (List.replicate 130
        (⟨some (.polygon [[(0, 0)]])⟩ : Feature))).getLast? = some ch →
      ch.length = 30) := by
  have hq : qualifies (1/10) ⟨1, -1, 1, -1⟩
      (⟨some (.polygon [[(0, 0)]])⟩ : Feature) = true := by
    simp only [qualifies, getCentroid, centroidFromRings]
    norm_num [isPointInBounds]
  have hokin : geomOk (⟨some (.polygon [[(0, 0)]])⟩ : Feature) = true := rfl
  have hok : ∀ ft ∈ List.replicate 130
      (⟨some (.polygon [[(0, 0)]])⟩ : Feature), geomOk ft = true := by
    intro ft hft
    rw [List.eq_of_mem_replicate hft]
    exact hokin
  have hfilter : ∀ n, (List.replicate n
      (⟨some (.polygon [[(0, 0)]])⟩ : Feature)).filter
        (qualifies (1/10) ⟨1, -1, 1, -1⟩)
      = List.replicate n (⟨some (.polygon [[(0, 0)]])⟩ : Feature) := by
    intro n
    induction n with
    | zero => rfl
    | succ n ih => rw [List.replicate_succ, List.filter_cons, if_pos hq, ih]
  obtain ⟨h1, -, h3, h4, h5, -⟩ := streamTier_batches 50 (1/10) ⟨1, -1, 1, -1⟩
    (List.replicate 130 ⟨some (.polygon [[(0, 0)]])⟩) (by norm_num) hok
  rw [hfilter] at h1 h3 h4 h5
  refine ⟨h1, ?_, h4, ?_⟩
  · rw [h3]
    simp
  · intro ch hch
    have := h5 ch hch
    simpa using this
